import Mathlib

/-!
Shallow embedding of the goredis typed accessor layer (handler.go) and the
ranking board (ranking.go), together with proofs about the behaviour the
specification ascribes to them.

Conventions of the embedding:
* Go durations are modelled as `Int` nanoseconds (`GoDuration`).
* Go `float64` scores are modelled as `Rat`; every score appearing in the
  claims is an exact small integer, on which `Rat` and `float64` agree.
* A Go function that can return an `error`, or panic, returns a `GoOutcome`.
* A Go `map[string]V` value (always non-nil once `make`d) is modelled as an
  association list `List (String × V)`; a Go map **variable** that may be
  nil (`var m map[string]V`) is modelled as `Option (List (String × V))`,
  `none` being the nil map.
* The remote Redis string store is a function `String → Option StrEntry`;
  `none` models the `redis.Nil` reply for an absent key.  A ranking board
  (one sorted set) is an association list of member/score pairs whose
  member keys are unique (the store invariant).
-/

namespace Goredis

/-- Result of a Go call: a normal value, a returned `error`, or a runtime
panic (e.g. assignment to an entry in a nil map). -/
inductive GoOutcome (α : Type) where
  | ok : α → GoOutcome α
  | err : String → GoOutcome α
  | crash : String → GoOutcome α
deriving DecidableEq, Repr

/-- True when the outcome is a runtime panic. -/
def GoOutcome.isCrash {α : Type} : GoOutcome α → Bool
  | .crash _ => true
  | _ => false

/-- Go durations in nanoseconds; `0` means "never expire" throughout the
source. -/
abbrev GoDuration := Int

/-- Lookup in a Go map modelled as an association list (first binding
wins; bindings are kept unique by `goMapSet`). -/
def goMapGet {α : Type} : List (String × α) → String → Option α
  | [], _ => none
  | (k1, v) :: rest, k => if k1 = k then some v else goMapGet rest k

/-- Assignment `m[k] = v` on a non-nil Go map: overwrite the existing
binding, or append a fresh one. -/
def goMapSet {α : Type} : List (String × α) → String → α → List (String × α)
  | [], k, v => [(k, v)]
  | (k1, w) :: rest, k, v =>
      if k1 = k then (k, v) :: rest else (k1, w) :: goMapSet rest k v

/-- Assignment `m[k] = v` on a possibly-nil Go map variable: Go panics when
the map is nil. -/
def goMapAssign {α : Type} (m : Option (List (String × α))) (k : String)
    (v : α) : GoOutcome (Option (List (String × α))) :=
  match m with
  | none => .crash "assignment to entry in nil map"
  | some l => .ok (some (goMapSet l k v))

/-- Loop `for k, v := range src { m[k] = f k v }` building a Go map from a
per-key value function, starting from the empty (made) map. -/
def buildMap {α : Type} (ks : List String) (f : String → α) :
    List (String × α) :=
  ks.foldl (fun acc k => goMapSet acc k (f k)) []

theorem goMapGet_goMapSet_self {α : Type} (m : List (String × α))
    (k : String) (v : α) : goMapGet (goMapSet m k v) k = some v := by
  induction m with
  | nil => simp [goMapSet, goMapGet]
  | cons hd tl ih =>
      obtain ⟨k1, w⟩ := hd
      by_cases hk : k1 = k
      · simp [goMapSet, goMapGet, hk]
      · simp [goMapSet, goMapGet, hk, ih]

theorem goMapGet_goMapSet_other {α : Type} (m : List (String × α))
    (k k1 : String) (v : α) (hne : k1 ≠ k) :
    goMapGet (goMapSet m k1 v) k = goMapGet m k := by
  induction m with
  | nil => simp [goMapSet, goMapGet, hne]
  | cons hd tl ih =>
      obtain ⟨k2, w⟩ := hd
      by_cases hk : k2 = k1
      · subst hk
        simp [goMapSet, goMapGet, hne]
      · by_cases hk2 : k2 = k
        · simp [goMapSet, goMapGet, hk, hk2, Ne.symm hne]
        · simp [goMapSet, goMapGet, hk, hk2, ih]

theorem goMapGet_buildMap_aux {α : Type} (f : String → α) (k : String) :
    ∀ (ks : List String) (acc : List (String × α)),
      (k ∈ ks ∨ goMapGet acc k = some (f k)) →
      goMapGet (ks.foldl (fun a k2 => goMapSet a k2 (f k2)) acc) k
        = some (f k) := by
  intro ks
  induction ks with
  | nil =>
      intro acc h
      simpa using h.resolve_left (by simp)
  | cons hd tl ih =>
      intro acc h
      simp only [List.foldl_cons]
      apply ih
      by_cases hhd : hd = k
      · subst hhd
        exact Or.inr (goMapGet_goMapSet_self acc hd (f hd))
      · rcases h with h | h
        · rcases List.mem_cons.mp h with h1 | h1
          · exact absurd h1.symm hhd
          · exact Or.inl h1
        · exact Or.inr (by
            rw [goMapGet_goMapSet_other acc k hd (f hd) hhd]; exact h)

theorem goMapGet_buildMap_mem {α : Type} (f : String → α)
    (ks : List String) (k : String) (hk : k ∈ ks) :
    goMapGet (buildMap ks f) k = some (f k) :=
  goMapGet_buildMap_aux f k ks [] (Or.inl hk)

/-! ### Key namer (handler.go: addKeyPrefix, removeKeyPrefix) -/

/-- Go `strings.HasPrefix s pre`, on the underlying character lists. -/
def goHasPre (s pre : String) : Bool := pre.data.isPrefixOf s.data

/-- Go `strings.TrimPrefix s pre`: drop `pre` when it is a prefix of `s`,
otherwise return `s` unchanged. -/
def goTrimPre (s pre : String) : String :=
  if goHasPre s pre then ⟨s.data.drop pre.data.length⟩ else s

/-- Source `addKeyPrefix` (handler.go lines 223-233): panics on an empty
key list, otherwise maps every key `k` to `cfg.KeyPrefix + "." + k`. -/
def addKeyPrefix (keyPfx : String) (keys : List String) :
    GoOutcome (List String) :=
  if keys.isEmpty then .crash "key is empty"
  else .ok (keys.map (fun k => keyPfx ++ "." ++ k))

/-- Source `removeKeyPrefix` (handler.go lines 236-246): panics on an
empty key list, otherwise applies `strings.TrimPrefix(k, cfg.KeyPrefix+".")`
to every key. -/
def removeKeyPrefix (keyPfx : String) (keys : List String) :
    GoOutcome (List String) :=
  if keys.isEmpty then .crash "key is empty"
  else .ok (keys.map (fun k => goTrimPre k (keyPfx ++ ".")))

theorem isPrefixOf_append_self (l r : List Char) :
    l.isPrefixOf (l ++ r) = true := by
  induction l with
  | nil => simp [List.isPrefixOf]
  | cons a t ih => simp [List.isPrefixOf, ih]

theorem goTrimPre_append (p s : String) : goTrimPre (p ++ s) p = s := by
  unfold goTrimPre goHasPre
  rw [String.data_append, isPrefixOf_append_self]
  simp only [if_true]
  rw [List.drop_left]

theorem map_goTrimPre_qualified (p : String) (l : List String) :
    l.map ((fun k => goTrimPre k (p ++ ".")) ∘ fun k => p ++ "." ++ k)
      = l := by
  induction l with
  | nil => rfl
  | cons a t ih => simp [Function.comp, goTrimPre_append, ih]

theorem map_goTrimPre_id (p : String) (l : List String)
    (h : ∀ k ∈ l, goHasPre k (p ++ ".") = false) :
    l.map (fun k => goTrimPre k (p ++ ".")) = l := by
  induction l with
  | nil => rfl
  | cons a t ih =>
      have ha : goTrimPre a (p ++ ".") = a := by
        unfold goTrimPre
        rw [h a (List.mem_cons_self a t)]
        simp
      simp [ha, ih (fun k hk => h k (List.mem_cons_of_mem a hk))]

/-- C4: for every non-empty list of logical keys and any configured key
prefix, unqualifying the qualified keys returns the original keys:
`removeKeyPrefix (addKeyPrefix keys) = keys`. -/
theorem removeKeyPrefix_addKeyPrefix (p : String) (keys qs : List String)
    (hne : keys ≠ []) (h : addKeyPrefix p keys = .ok qs) :
    removeKeyPrefix p qs = .ok keys := by
  have hni : keys.isEmpty = false := by
    cases keys with
    | nil => exact absurd rfl hne
    | cons a l => rfl
  unfold addKeyPrefix at h
  rw [hni] at h
  simp only [Bool.false_eq_true, if_false, GoOutcome.ok.injEq] at h
  subst h
  have hqs : (keys.map (fun k => p ++ "." ++ k)).isEmpty = false := by
    cases keys with
    | nil => exact absurd rfl hne
    | cons a l => rfl
  unfold removeKeyPrefix
  rw [hqs]
  simp only [Bool.false_eq_true, if_false, List.map_map, GoOutcome.ok.injEq]
  exact map_goTrimPre_qualified p keys

/-- Witness for C4 at the prefix `"p"` and key list `["k"]`. -/
theorem removeKeyPrefix_addKeyPrefix_witness :
    (["k"] ≠ ([] : List String)) ∧
      removeKeyPrefix "p" ["p.k"] = .ok ["k"] :=
  ⟨by decide,
    removeKeyPrefix_addKeyPrefix "p" ["k"] ["p.k"] (by decide) (by decide)⟩

/-- C5 counterexample: a key that does not start with the configured
prefix followed by a dot is NOT rejected with an error; `removeKeyPrefix`
returns it unchanged (the claimed InvalidArgument failure does not
exist in the code). -/
theorem removeKeyPrefix_counterexample :
    removeKeyPrefix "p" ["x"] = .ok ["x"] := by decide

/-- C5 amended: for every non-empty key list whose keys do not start with
the configured prefix followed by a dot, `removeKeyPrefix` succeeds and
returns every key unchanged (TrimPrefix is the identity there); the only
failure mode of the function is the panic on an empty key list. -/
theorem removeKeyPrefix_unqualified_identity (p : String)
    (keys : List String) (hne : keys ≠ [])
    (h : ∀ k ∈ keys, goHasPre k (p ++ ".") = false) :
    removeKeyPrefix p keys = .ok keys := by
  have hni : keys.isEmpty = false := by
    cases keys with
    | nil => exact absurd rfl hne
    | cons a l => rfl
  unfold removeKeyPrefix
  rw [hni]
  simp only [Bool.false_eq_true, if_false, GoOutcome.ok.injEq]
  exact map_goTrimPre_id p keys h

/-- Witness for the amended C5 at prefix `"p"` and key list `["x"]`. -/
theorem removeKeyPrefix_unqualified_identity_witness :
    (["x"] ≠ ([] : List String)) ∧ removeKeyPrefix "p" ["x"] = .ok ["x"] :=
  ⟨by decide,
    removeKeyPrefix_unqualified_identity "p" ["x"] (by decide) (by decide)⟩

/-! ### Redis string store, Set with TTL (claim C1), getString (C7, C8) -/

/-- One stored Redis string: its value and its remaining time-to-live
(`none` = the key never expires). -/
structure StrEntry where
  value : String
  ttl : Option GoDuration
deriving DecidableEq, Repr

/-- The remote string keyspace; `none` models an absent key (a read
replies `redis.Nil`). -/
abbrev StrStore := String → Option StrEntry

/-- Reply of one Redis command: a value, the `redis.Nil` sentinel, or a
transport/command error. -/
inductive RedisRes (α : Type) where
  | ok : α → RedisRes α
  | nilRes : RedisRes α
  | errRes : String → RedisRes α
deriving DecidableEq, Repr

/-- Redis `GET key`. -/
def redisGet (st : StrStore) (k : String) : RedisRes String :=
  match st k with
  | none => .nilRes
  | some e => .ok e.value

/-- Redis `SET key value [EX expi]` as issued by go-redis `Client.Set`:
an expiration of `0` stores the key without any TTL. -/
def redisSet (st : StrStore) (k v : String) (expi : GoDuration) : StrStore :=
  fun k2 =>
    if k2 = k then some ⟨v, if expi = 0 then none else some expi⟩ else st k2

/-- Source `setVariousKind` (handler.go lines 311-323): one `SET` of the
qualified key; the returned status is `"OK"` in this store model, so the
status check never fires. -/
def setVariousKind (st : StrStore) (keyPfx key value : String)
    (expiration : GoDuration) : GoOutcome StrStore :=
  .ok (redisSet st (keyPfx ++ "." ++ key) value expiration)

/-- Source `setExpiration` (handler.go lines 811-827): a zero expiration
is a no-op; otherwise `EXPIRE` is issued, whose false status (key absent)
the source turns into an error. -/
def setExpiration (st : StrStore) (key : String)
    (expiration : GoDuration) : GoOutcome StrStore :=
  if expiration = 0 then .ok st
  else
    match st key with
    | none => .err "redis set status is not OK"
    | some e =>
        .ok (fun k2 =>
          if k2 = key then some ⟨e.value, some expiration⟩ else st k2)

/-- Source `Set` (handler.go lines 128-147) on a string-kinded value.  It
keeps the source's expiration selection verbatim: `expi` starts at `0`
(never expire) and is only replaced by `expiration[0]` when **more than
one** variadic ttl argument was passed (`len(expiration) > 1`). -/
def Set (st : StrStore) (keyPfx key value : String)
    (expiration : List GoDuration) : GoOutcome StrStore :=
  if key = "" then .err "key is empty"
  else
    let expi : GoDuration :=
      if expiration.length > 1 then expiration.headD 0 else 0
    setVariousKind st keyPfx key value expi

/-- C1 (code bug): calling `Set` with a single non-zero ttl argument does
NOT apply the expiration — the guard `len(expiration) > 1` skips the
single-argument case, so the key is stored with no TTL even though the
requested ttl (60) is non-zero. -/
theorem set_single_ttl_not_applied :
    (60 : GoDuration) ≠ 0 ∧
      ∃ st2 : StrStore,
        Set (fun _ => none) "p" "k" "v" [60] = .ok st2 ∧
          st2 "p.k" = some ⟨"v", none⟩ := by
  refine ⟨by decide, redisSet (fun _ => none) ("p" ++ "." ++ "k") "v" 0,
    rfl, ?_⟩
  decide

/-- Result of the polymorphic `Get`: a single decoded value for one
requested key, or a key-indexed mapping for several. -/
inductive GetRes (β : Type) where
  | single : Option β → GetRes β
  | multi : List (String × Option β) → GetRes β
deriving DecidableEq, Repr

/-- Source `getString` (handler.go lines 249-291).  One key: `GET`, with
`redis.Nil` translated to a nil result.  Several keys: `MGET` on the
qualified keys, then a mapping entry per requested key, nil for absent
values. -/
def getString (st : StrStore) (keyPfx : String) (keys : List String) :
    GoOutcome (GetRes String) :=
  if keys.isEmpty then .err "key is empty"
  else if keys.length = 1 then
    match redisGet st (keyPfx ++ "." ++ keys.headD "") with
    | .nilRes => .ok (.single none)
    | .errRes e => .err e
    | .ok v => .ok (.single (some v))
  else
    .ok (.multi (buildMap keys
      (fun k => (st (keyPfx ++ "." ++ k)).map StrEntry.value)))

/-- Source `redisCmdToSlice` (handler.go lines 748-767): `redis.Nil`
becomes a nil result; `dec` models the element conversion plus unmarshal
step, whose failure surfaces as an error on this single-key path. -/
def redisCmdToSlice {β : Type} (cmd : RedisRes (List String))
    (dec : List String → Option β) : GoOutcome (Option β) :=
  match cmd with
  | .nilRes => .ok none
  | .errRes e => .err e
  | .ok vs =>
      match dec vs with
      | none => .err "conversion error"
      | some b => .ok (some b)

/-- Source `redisCmdToMap` (handler.go lines 770-808): a pipeline-level
`redis.Nil` yields a nil result, another pipeline error aborts; otherwise
every requested key receives a mapping entry — nil when its command
errored, its value list is empty, or decoding (`dec`) failed. -/
def redisCmdToMap {β : Type} (connErr : RedisRes Unit)
    (cmdOf : String → RedisRes (List String))
    (dec : List String → Option β) (keys : List String) :
    GoOutcome (Option (List (String × Option β))) :=
  match connErr with
  | .nilRes => .ok none
  | .errRes e => .err e
  | .ok _ =>
      .ok (some (buildMap keys (fun k =>
        match cmdOf k with
        | .nilRes => none
        | .errRes _ => none
        | .ok vs => if vs.isEmpty then none else dec vs)))

/-- C8: a single-key read of a never-written key returns nil with no
error, both on the string path (`getString`) and on the slice paths
(`redisCmdToSlice` with a `redis.Nil` command reply). -/
theorem get_missing_key_nil (st : StrStore) (keyPfx key : String)
    (habs : st (keyPfx ++ "." ++ key) = none) :
    getString st keyPfx [key] = .ok (.single none) ∧
      ∀ (β : Type) (dec : List String → Option β),
        redisCmdToSlice .nilRes dec = (.ok none : GoOutcome (Option β)) := by
  constructor
  · unfold getString redisGet
    simp [habs]
  · intro β dec
    rfl

/-- Witness for C8 on the empty store at prefix `"p"`, key `"a"`. -/
theorem get_missing_key_nil_witness :
    ((fun _ => none : StrStore) ("p" ++ "." ++ "a") = none) ∧
      getString (fun _ => none) "p" ["a"] = .ok (.single none) :=
  ⟨rfl, (get_missing_key_nil (fun _ => none) "p" "a" rfl).1⟩

/-- C7: every requested logical key gets an entry in the mapping returned
by a multi-key read — on the string path its entry holds the stored value
or nil when absent; on the slice paths (`redisCmdToMap`) the entry is
present and is nil whenever the per-key command replied `redis.Nil`. -/
theorem get_multi_complete {β : Type} (st : StrStore) (keyPfx : String)
    (keys : List String) (k : String)
    (cmdOf : String → RedisRes (List String)) (dec : List String → Option β)
    (hk : k ∈ keys) (h2 : 1 < keys.length) :
    (∃ r, getString st keyPfx keys = .ok (.multi r) ∧
        goMapGet r k = some ((st (keyPfx ++ "." ++ k)).map StrEntry.value)) ∧
    (∃ r2, redisCmdToMap (.ok ()) cmdOf dec keys = .ok (some r2) ∧
        (goMapGet r2 k).isSome = true ∧
        (cmdOf k = .nilRes → goMapGet r2 k = some none)) := by
  have hni : keys.isEmpty = false := by
    cases keys with
    | nil => simp at h2
    | cons a l => rfl
  have hlen : ¬ keys.length = 1 := by omega
  constructor
  · refine ⟨_, ?_, goMapGet_buildMap_mem
      (fun k2 => (st (keyPfx ++ "." ++ k2)).map StrEntry.value) keys k hk⟩
    unfold getString
    rw [hni, if_neg (by simp), if_neg hlen]
  · refine ⟨_, rfl, ?_, ?_⟩
    · rw [goMapGet_buildMap_mem _ keys k hk]; rfl
    · intro hnil
      rw [goMapGet_buildMap_mem _ keys k hk, hnil]

/-- Witness for C7: two keys, one present, at prefix `"p"`. -/
theorem get_multi_complete_witness :
    ("b" ∈ ["a", "b"]) ∧ (1 < (["a", "b"] : List String).length) ∧
      (∃ r, getString
            (fun k2 => if k2 = "p.a" then some ⟨"va", none⟩ else none)
            "p" ["a", "b"] = .ok (.multi r) ∧
          goMapGet r "b" = some none) := by
  refine ⟨by decide, by decide, ?_⟩
  have h := (get_multi_complete
    (fun k2 => if k2 = "p.a" then some ⟨"va", none⟩ else none) "p"
    ["a", "b"] "b" (fun _ => .nilRes) (fun _ => (none : Option String))
    (by decide) (by decide)).1
  obtain ⟨r, hr, hget⟩ := h
  exact ⟨r, hr, by rw [hget]; decide⟩

/-! ### Get dispatch by reflected kind and context hint (claim C6) -/

/-- Go reflect kind of the generic target type, as far as the dispatch in
`Get` (handler.go lines 74-104) distinguishes it. -/
inductive GoKind where
  | stringKind
  | mapKind
  | structKind
  | sliceKind
  | otherKind
deriving DecidableEq, Repr

/-- The adapter path chosen by `Get`. -/
inductive GetPath where
  | viaString
  | viaHash
  | viaVarious
  | viaSet
  | viaSortedSet
  | viaList
deriving DecidableEq, Repr

/-- Source constant `HASH`. -/
def HASH : String := "hash"

/-- Source constant `LIST`. -/
def LIST : String := "list"

/-- Source constant `SET`. -/
def SET : String := "set"

/-- Source constant `ZSET`. -/
def ZSET : String := "zset"

/-- Dispatch logic of `Get` (handler.go lines 74-104): the reflected kind
of `T` picks the eligible family, and the `CtxKey_DataType` context hint
(absent or any string) selects within it, every unmatched hint falling to
the default `getVariousKind` path. -/
def getDispatch (tKind : GoKind) (hint : Option String) : GetPath :=
  match tKind with
  | .stringKind => .viaString
  | .mapKind | .structKind =>
      if hint = some HASH then .viaHash else .viaVarious
  | .sliceKind =>
      if hint = some SET then .viaSet
      else if hint = some ZSET then .viaSortedSet
      else if hint = some LIST then .viaList
      else .viaVarious
  | .otherKind => .viaVarious

/-- C6: a hint inconsistent with the target type's shape never crashes the
dispatch — a slice type with any hint other than LIST/SET/ZSET takes the
default `getVariousKind` path, and a map or struct type with any non-HASH
hint does too. -/
theorem get_dispatch_fallback :
    (∀ hint : Option String, hint ≠ some LIST → hint ≠ some SET →
        hint ≠ some ZSET → getDispatch .sliceKind hint = .viaVarious) ∧
    (∀ hint : Option String, hint ≠ some HASH →
        getDispatch .mapKind hint = .viaVarious ∧
          getDispatch .structKind hint = .viaVarious) := by
  constructor
  · intro hint h1 h2 h3
    unfold getDispatch
    rw [if_neg h2, if_neg h3, if_neg h1]
  · intro hint h1
    unfold getDispatch
    rw [if_neg h1]
    exact ⟨rfl, rfl⟩

/-- Witness for C6: a slice type with the HASH hint, and a map type with
the LIST hint, both land on the default string path. -/
theorem get_dispatch_fallback_witness :
    getDispatch .sliceKind (some "hash") = .viaVarious ∧
      getDispatch .mapKind (some "list") = .viaVarious :=
  ⟨get_dispatch_fallback.1 (some "hash") (by decide) (by decide) (by decide),
    (get_dispatch_fallback.2 (some "list") (by decide)).1⟩

/-! ### MSet dispatch and the multi-key writers (claim C2) -/

/-- One `interface{}` value of an MSet batch: the marshalled scalar, a
field map (hash-shaped), or a slice of already-encoded elements. -/
inductive GoVal where
  | str : String → GoVal
  | hash : List (String × String) → GoVal
  | slice : List String → GoVal
deriving DecidableEq, Repr

/-- Marshalling of one `MSET` argument by the go-redis client: strings
pass through; maps and slices are not marshallable and make the command
return an error. -/
def encodeArg : GoVal → Option String
  | .str s => some s
  | .hash _ => none
  | .slice _ => none

/-- Flattening of one hash value (a Go field map) into the
`field, value, field, value, …` argument slice of `HMSET`. -/
def goKVFlatten (fields : List (String × String)) : List String :=
  fields.foldl (fun acc p => acc ++ [p.1, p.2]) []

/-- Go reflect kinds the MSet dispatch switch distinguishes. -/
inductive ReflectKind where
  | stringK
  | mapK
  | structK
  | sliceK
  | interfaceK
deriving DecidableEq, Repr

/-- The scrutinee of MSet's switch:
`reflect.TypeOf(keyValues).Elem().Kind()`.  The parameter `keyValues`
has static type `map[string]interface{}`, so its element type is
`interface{}` and the kind is always `reflect.Interface`. -/
def msetElemKind : ReflectKind := .interfaceK

/-- Source `setMultiVariousKind` (handler.go lines 326-344): appends the
prefixed key and the raw value to a slice (appending to a nil slice is
legal Go) and issues one `MSET`, which fails when any value is not
marshallable and otherwise stores every pair as a plain string with no
TTL; this model reports the source's always-"OK" status as success. -/
def setMultiVariousKind (st : StrStore) (keyPfx : String)
    (keyValues : List (String × GoVal)) (expiration : GoDuration) :
    GoOutcome StrStore :=
  if keyValues.all (fun kv => (encodeArg kv.2).isSome) then
    .ok (keyValues.foldl
      (fun s kv => redisSet s (keyPfx ++ "." ++ kv.1)
        ((encodeArg kv.2).getD "") 0) st)
  else .err "redis: can not marshal value"

/-- Source `setMultiHash` (handler.go lines 456-503).  The accumulator is
declared `var temp map[string][]interface{}` — a nil map — and the loop
body assigns `temp[key] = val` into it, a Go panic; a value that is not a
field map goes through `goutils.Unmarshal` first, whose failure returns
an error.  Only an empty batch reaches the pipeline, which then ranges
over the nil map and issues no command, leaving the store untouched. -/
def setMultiHash (st : StrStore) (keyPfx : String)
    (keyValues : List (String × GoVal)) (expiration : GoDuration) :
    GoOutcome StrStore :=
  let loop := keyValues.foldl
    (fun (acc : GoOutcome (Option (List (String × List String)))) kv =>
      match acc with
      | .ok m =>
          match kv.2 with
          | .hash fields => goMapAssign m kv.1 (goKVFlatten fields)
          | _ => .err "cannot unmarshal value into a field map"
      | e => e)
    (.ok none)
  match loop with
  | .crash e => .crash e
  | .err e => .err e
  | .ok _ => .ok st

/-- Source `setMultiList` (handler.go lines 568-604): same nil
`var temp map[string][]interface{}` accumulator, assigned
`temp[key] = value.([]interface{})` in the loop — the type assertion
itself panics on a non-slice value, the assignment panics on the nil
map.  Only an empty batch reaches the (then command-less) pipeline. -/
def setMultiList (st : StrStore) (keyPfx : String)
    (keyValues : List (String × GoVal)) (expiration : GoDuration) :
    GoOutcome StrStore :=
  let loop := keyValues.foldl
    (fun (acc : GoOutcome (Option (List (String × List String)))) kv =>
      match acc with
      | .ok m =>
          match kv.2 with
          | .slice elems => goMapAssign m kv.1 elems
          | _ => .crash "interface conversion"
      | e => e)
    (.ok none)
  match loop with
  | .crash e => .crash e
  | .err e => .err e
  | .ok _ => .ok st

/-- Source `setMultiSet` (handler.go lines 655-691): identical shape to
`setMultiList` with `SADD` in place of `RPUSH`; the nil-map assignment
precedes any command. -/
def setMultiSet (st : StrStore) (keyPfx : String)
    (keyValues : List (String × GoVal)) (expiration : GoDuration) :
    GoOutcome StrStore :=
  let loop := keyValues.foldl
    (fun (acc : GoOutcome (Option (List (String × List String)))) kv =>
      match acc with
      | .ok m =>
          match kv.2 with
          | .slice elems => goMapAssign m kv.1 elems
          | _ => .crash "interface conversion"
      | e => e)
    (.ok none)
  match loop with
  | .crash e => .crash e
  | .err e => .err e
  | .ok _ => .ok st

/-- Source `MSet` (handler.go lines 186-220): the variadic expiration
selection (`len(expiration) > 1`) followed by the switch on
`reflect.TypeOf(keyValues).Elem().Kind()`.  That kind is the constant
`reflect.Interface` (see `msetElemKind`), which matches no case, so every
call falls through to the default `setMultiVariousKind` branch; the
structured writers in the other arms are unreachable from here. -/
def MSet (st : StrStore) (keyPfx : String)
    (keyValues : List (String × GoVal)) (hint : Option String)
    (expiration : List GoDuration) : GoOutcome StrStore :=
  let expi : GoDuration :=
    if expiration.length > 1 then expiration.headD 0 else 0
  match msetElemKind with
  | .stringK => setMultiVariousKind st keyPfx keyValues expi
  | .mapK | .structK =>
      if hint = some HASH then setMultiHash st keyPfx keyValues expi
      else setMultiVariousKind st keyPfx keyValues expi
  | .sliceK =>
      if hint = some SET then setMultiSet st keyPfx keyValues expi
      else if hint = some LIST then setMultiList st keyPfx keyValues expi
      else setMultiVariousKind st keyPfx keyValues expi
  | .interfaceK => setMultiVariousKind st keyPfx keyValues expi

/-- C2: MSet never panics.  Its switch scrutinises the element kind of
the static type `map[string]interface{}` — always `reflect.Interface` —
so every call, whatever the hint and the values, takes the default
`setMultiVariousKind` branch, which returns success or a marshal error;
the nil-map assignments in setMultiHash/setMultiList/setMultiSet are
unreachable from MSet. -/
theorem mset_never_panics (st : StrStore) (keyPfx : String)
    (keyValues : List (String × GoVal)) (hint : Option String)
    (expiration : List GoDuration) (hne : keyValues ≠ []) :
    (MSet st keyPfx keyValues hint expiration).isCrash = false := by
  unfold MSet setMultiVariousKind
  by_cases h : keyValues.all (fun kv => (encodeArg kv.2).isSome)
  · simp [msetElemKind, h, GoOutcome.isCrash]
  · simp [msetElemKind, h, GoOutcome.isCrash]

/-- Witness for C2: a one-entry hash-valued batch under the HASH hint
does not crash. -/
theorem mset_never_panics_witness :
    ([("h1", GoVal.hash [("f1", "v1")])] ≠
        ([] : List (String × GoVal))) ∧
      (MSet (fun _ => none) "p" [("h1", GoVal.hash [("f1", "v1")])]
          (some "hash") []).isCrash = false :=
  ⟨by decide,
    mset_never_panics (fun _ => none) "p"
      [("h1", GoVal.hash [("f1", "v1")])] (some "hash") [] (by decide)⟩

/-! ### Ranking board (ranking.go; claims C3, C9, C10)

A board is one sorted set: member/score pairs with unique members.
Scores are modelled as `Rat`; every score in the claims is a small
integer, on which `Rat` and the source's `float64` agree exactly. -/

/-- One ranking board keyspace (the single sorted set behind a
`RankingBoard`). -/
abbrev Board := List (String × Rat)

/-- Source `RankingUpsertKind` (ranking.go lines 213-218). -/
inductive RankingUpsertKind where
  | Upsert_GreaterThan
  | Upsert_LessThan
deriving DecidableEq, Repr

/-- Redis `ZADD key [GT|LT] member score` with a single member, per the
store-client contract (spec section 6, add-with-condition): a brand-new
member is always inserted; an existing member's score is replaced only
when the GT (strictly greater) or LT (strictly lower) condition holds, or
when no condition flag is set. -/
def zaddArgs (board : Board) (gt lt : Bool) (member : String)
    (score : Rat) : Board :=
  match goMapGet board member with
  | none => board ++ [(member, score)]
  | some old =>
      if (gt && decide (old < score)) || (lt && decide (score < old))
          || (!gt && !lt) then
        goMapSet board member score
      else board

/-- Source `Upsert` (ranking.go lines 249-257), with the source's variadic
flag computation: `GT: len(kind) == 0 || (len(kind) > 0 && kind[0] ==
Upsert_GreaterThan)` and `LT: len(kind) > 0 && kind[0] ==
Upsert_LessThan`. -/
def Upsert (board : Board) (member : String) (score : Rat)
    (kind : List RankingUpsertKind) : Board :=
  zaddArgs board
    ((kind.length == 0) || (decide (kind.length > 0) &&
      (kind.headD .Upsert_GreaterThan == .Upsert_GreaterThan)))
    (decide (kind.length > 0) &&
      (kind.headD .Upsert_GreaterThan == .Upsert_LessThan))
    member score

theorem goMapGet_append_absent {α : Type} (m : List (String × α))
    (k : String) (v : α) (habs : goMapGet m k = none) :
    goMapGet (m ++ [(k, v)]) k = some v := by
  induction m with
  | nil => simp [goMapGet]
  | cons hd tl ih =>
      obtain ⟨k1, w⟩ := hd
      by_cases hk : k1 = k
      · simp [goMapGet, hk] at habs
      · simp only [goMapGet, hk, if_false] at habs
        simp [goMapGet, hk, ih habs]

theorem zaddArgs_present (b : Board) (gt lt : Bool) (member : String)
    (score old : Rat) (h : goMapGet b member = some old) :
    zaddArgs b gt lt member score =
      if (gt && decide (old < score)) || (lt && decide (score < old))
          || (!gt && !lt) then
        goMapSet b member score
      else b := by
  unfold zaddArgs
  rw [h]

theorem zaddArgs_absent (b : Board) (gt lt : Bool) (member : String)
    (score : Rat) (h : goMapGet b member = none) :
    zaddArgs b gt lt member score = b ++ [(member, score)] := by
  unfold zaddArgs
  rw [h]

/-- C3: conditional upsert.  On a board where member `"m"` has score 5,
`Upsert("m", 3, GreaterThan)` keeps the score at 5 and
`Upsert("m", 3, LessThan)` lowers it to 3; a member absent from any board
is always inserted by `Upsert(member, s, GreaterThan)` with score `s`. -/
theorem upsert_conditional (b : Board) (hm : goMapGet b "m" = some 5) :
    goMapGet (Upsert b "m" 3 [.Upsert_GreaterThan]) "m" = some 5 ∧
      goMapGet (Upsert b "m" 3 [.Upsert_LessThan]) "m" = some 3 ∧
      ∀ (b2 : Board) (member : String) (s : Rat),
        goMapGet b2 member = none →
          goMapGet (Upsert b2 member s [.Upsert_GreaterThan]) member
            = some s := by
  refine ⟨?_, ?_, ?_⟩
  · rw [show Upsert b "m" 3 [.Upsert_GreaterThan]
        = zaddArgs b true false "m" 3 from rfl,
      zaddArgs_present b true false "m" 3 5 hm, if_neg (by decide)]
    exact hm
  · rw [show Upsert b "m" 3 [.Upsert_LessThan]
        = zaddArgs b false true "m" 3 from rfl,
      zaddArgs_present b false true "m" 3 5 hm, if_pos (by decide)]
    exact goMapGet_goMapSet_self b "m" 3
  · intro b2 member s habs
    rw [show Upsert b2 member s [.Upsert_GreaterThan]
        = zaddArgs b2 true false member s from rfl,
      zaddArgs_absent b2 true false member s habs]
    exact goMapGet_append_absent b2 member s habs

/-- Witness for C3 on the board `[("m", 5)]` and absent member `"x"`. -/
theorem upsert_conditional_witness :
    (goMapGet ([("m", 5)] : Board) "m" = some 5) ∧
      goMapGet (Upsert [("m", 5)] "m" 3 [.Upsert_LessThan]) "m"
        = some 3 ∧
      goMapGet (Upsert [("m", 5)] "x" 1 [.Upsert_GreaterThan]) "x"
        = some 1 := by
  have h := upsert_conditional [("m", 5)] (by decide)
  exact ⟨by decide, h.2.1, h.2.2 [("m", 5)] "x" 1 (by decide)⟩

/-- Source `Score` (ranking.go lines 357-363): `ZSCORE`, with the
`redis.Nil` reply of an absent member translated to `(0, nil)`. -/
def Score (board : Board) (member : String) : GoOutcome Rat :=
  match goMapGet board member with
  | none => .ok 0
  | some v => .ok v

/-- Source `Scores` (ranking.go lines 367-398): one pipelined `ZSCORE`
per requested member.  The pinned go-redis v8 `TxPipelined` returns the
first command error — `redis.Nil` included — so a batch containing any
absent member surfaces a pipeline-level `redis.Nil`, which the source
(lines 376-381) turns into `(nil, nil)`: the result is `some` mapping
only when every `ZSCORE` succeeded, and `none` (the nil map) otherwise.
The loop's own absent-member arm (`m[members[i]] = 0`, line 394) is kept
in the translation but is unreachable behind the all-present guard. -/
def Scores (board : Board) (members : List String) :
    GoOutcome (Option (List (String × Rat))) :=
  if members.all (fun m => (goMapGet board m).isSome) then
    .ok (some (buildMap members (fun m =>
      match goMapGet board m with
      | none => 0
      | some v => v)))
  else .ok none

/-- C9 (code bug): `Score` of an absent member does return `(0, nil)`,
but `Scores` does not map absent members to 0 — a batch containing one
returns `(nil, nil)` (the nil map, omitting every member), because
`TxPipelined` propagates the absent member's `redis.Nil` as the pipeline
error and the per-member zero branch never runs. -/
theorem scores_absent_nil_map :
    Score ([] : Board) "never-added" = .ok 0 ∧
      Scores ([] : Board) ["never-added"] = .ok none :=
  ⟨rfl, rfl⟩

/-! ### Top-N range reads (claim C10) -/

/-- Ascending sorted-set order of the store: by score, ties broken by
member name ascending. -/
def zleAsc (a b : String × Rat) : Bool :=
  if a.2 < b.2 then true else if b.2 < a.2 then false else a.1 ≤ b.1

/-- Redis index slicing of an already-ordered member list, per `ZRANGE
key start stop`: a negative index counts from the end (`-1` is the last
element), indices are clamped to the range, and an inverted range is
empty. -/
def zrangeSlice (ordered : Board) (start stop : Int) : Board :=
  let len : Int := (ordered.length : Int)
  let start2 := if start < 0 then max 0 (len + start) else start
  let stop2 := if stop < 0 then len + stop else min stop (len - 1)
  if start2 > stop2 ∨ start2 ≥ len then []
  else (ordered.drop start2.toNat).take (stop2 - start2 + 1).toNat

/-- Redis `ZRANGE key start stop [REV] WITHSCORES` over one sorted set:
ascending store order, reversed when `Rev` is set. -/
def zrangeWithScores (board : Board) (start stop : Int) (rev : Bool) :
    Board :=
  zrangeSlice
    (if rev then (board.mergeSort zleAsc).reverse
     else board.mergeSort zleAsc)
    start stop

/-- Source `Top` (ranking.go lines 334-354): `ZRangeArgsWithScores` with
`Start: 0`, `Stop: n-1` and `Rev: len(orderBy) == 0 || (len(orderBy) > 0
&& orderBy[0])`, then one result-map entry per returned member. -/
def Top (board : Board) (n : Int) (orderBy : List Bool) :
    GoOutcome Board :=
  .ok ((zrangeWithScores board 0 (n - 1)
      (orderBy.isEmpty || (!orderBy.isEmpty && orderBy.headD false))).foldl
    (fun acc v => goMapSet acc v.1 v.2) [])

theorem goMapGet_eq_none_of_not_mem {α : Type} (m : List (String × α))
    (k : String) (h : k ∉ m.map Prod.fst) : goMapGet m k = none := by
  induction m with
  | nil => rfl
  | cons hd tl ih =>
      simp only [List.map_cons, List.mem_cons, not_or] at h
      have hk : ¬ hd.1 = k := fun hc => h.1 hc.symm
      simp [goMapGet, hk, ih h.2]

theorem goMapSet_eq_append {α : Type} (m : List (String × α)) (k : String)
    (v : α) (h : k ∉ m.map Prod.fst) : goMapSet m k v = m ++ [(k, v)] := by
  induction m with
  | nil => rfl
  | cons hd tl ih =>
      simp only [List.map_cons, List.mem_cons, not_or] at h
      obtain ⟨k1, w⟩ := hd
      simp only [goMapSet]
      rw [if_neg (fun hc => h.1 hc.symm), ih h.2]
      rfl

theorem foldl_goMapSet_eq_append {α : Type}
    (l : List (String × α)) :
    ∀ acc : List (String × α),
      (∀ p ∈ l, p.1 ∉ acc.map Prod.fst) → (l.map Prod.fst).Nodup →
      l.foldl (fun a p => goMapSet a p.1 p.2) acc = acc ++ l := by
  induction l with
  | nil => intro acc _ _; simp
  | cons hd tl ih =>
      intro acc hdisj hnd
      simp only [List.map_cons, List.nodup_cons] at hnd
      rw [List.foldl_cons,
        goMapSet_eq_append acc hd.1 hd.2 (hdisj hd (List.mem_cons_self hd tl))]
      rw [ih (acc ++ [hd]) ?hdisj2 hnd.2]
      · simp
      case hdisj2 =>
        intro p hp
        simp only [List.map_append, List.mem_append, not_or]
        refine ⟨hdisj p (List.mem_cons_of_mem hd hp), ?_⟩
        simp only [List.map_cons, List.map_nil, List.mem_singleton]
        intro hc
        exact hnd.1 (hc ▸ List.mem_map_of_mem Prod.fst hp)

theorem mem_of_goMapGet_eq_some {α : Type} (m : List (String × α))
    (k : String) (v : α) (h : goMapGet m k = some v) : (k, v) ∈ m := by
  induction m with
  | nil => simp [goMapGet] at h
  | cons hd tl ih =>
      obtain ⟨k1, w⟩ := hd
      by_cases hk : k1 = k
      · subst hk
        simp only [goMapGet, eq_self_iff_true, if_true,
          Option.some.injEq] at h
        subst h
        exact List.mem_cons_self _ _
      · simp only [goMapGet, hk, if_false] at h
        exact List.mem_cons_of_mem _ (ih h)

theorem goMapGet_eq_some_of_mem_nodup {α : Type} (m : List (String × α))
    (k : String) (v : α) (hnd : (m.map Prod.fst).Nodup)
    (h : (k, v) ∈ m) : goMapGet m k = some v := by
  induction m with
  | nil => cases h
  | cons hd tl ih =>
      simp only [List.map_cons, List.nodup_cons] at hnd
      rcases List.mem_cons.mp h with h1 | h1
      · rw [← h1]
        simp [goMapGet]
      · obtain ⟨k1, w⟩ := hd
        have hk : ¬ k1 = k := by
          intro hc
          subst hc
          exact hnd.1 (List.mem_map_of_mem Prod.fst h1 : k1 ∈ tl.map Prod.fst)
        simp only [goMapGet, hk, if_false]
        exact ih hnd.2 h1

theorem zrangeSlice_full (l : Board) (h : l ≠ []) :
    zrangeSlice l 0 (-1) = l := by
  have hlen : 0 < l.length := List.length_pos.mpr h
  simp only [zrangeSlice]
  rw [if_neg (show ¬ (0 : Int) < 0 by norm_num),
    if_pos (show (-1 : Int) < 0 by norm_num),
    if_neg (show ¬ ((0 : Int) > (l.length : Int) + -1 ∨
      (0 : Int) ≥ (l.length : Int)) by omega)]
  have h1 : ((l.length : Int) + -1 - 0 + 1).toNat = l.length := by omega
  rw [Int.toNat_zero, List.drop_zero, h1, List.take_length]

/-- C10: on every non-empty board with distinct members, `Top(0)` is not
empty — the stop index is computed as `n-1 = -1`, which Redis reads as
the last element, so the whole board comes back, every member with its
stored score. -/
theorem top_zero_full_board (b : Board) (hnd : (b.map Prod.fst).Nodup)
    (hne : b ≠ []) :
    ∃ z, Top b 0 [] = .ok z ∧ z ≠ [] ∧
      ∀ (m : String) (s : Rat),
        goMapGet b m = some s → goMapGet z m = some s := by
  have hperm : List.Perm ((b.mergeSort zleAsc).reverse) b :=
    ((b.mergeSort zleAsc).reverse_perm).trans (List.mergeSort_perm b zleAsc)
  have hordne : (b.mergeSort zleAsc).reverse ≠ [] := by
    intro h0
    have hlen := hperm.length_eq
    rw [h0] at hlen
    simp at hlen
    exact hne (List.length_eq_zero.mp hlen.symm)
  have hordnd : (((b.mergeSort zleAsc).reverse).map Prod.fst).Nodup :=
    ((hperm.map Prod.fst).nodup_iff).mpr hnd
  refine ⟨(b.mergeSort zleAsc).reverse, ?_, hordne, ?_⟩
  · unfold Top zrangeWithScores
    rw [show ((([] : List Bool).isEmpty ||
        (!([] : List Bool).isEmpty && ([] : List Bool).headD false)))
        = true from rfl, if_pos rfl,
      show (0 : Int) - 1 = -1 from rfl,
      zrangeSlice_full _ hordne,
      foldl_goMapSet_eq_append _ [] (by simp) hordnd]
    simp
  · intro m s hbs
    exact goMapGet_eq_some_of_mem_nodup _ m s hordnd
      (hperm.mem_iff.mpr (mem_of_goMapGet_eq_some b m s hbs))

/-- Witness for C10 on the board `[("a", 1), ("b", 2)]`. -/
theorem top_zero_full_board_witness :
    ((([("a", 1), ("b", 2)] : Board).map Prod.fst).Nodup) ∧
      (([("a", 1), ("b", 2)] : Board) ≠ []) ∧
      ∃ z, Top [("a", 1), ("b", 2)] 0 [] = .ok z ∧ z ≠ [] ∧
        ∀ (m : String) (s : Rat),
          goMapGet ([("a", 1), ("b", 2)] : Board) m = some s →
            goMapGet z m = some s :=
  ⟨by decide, by decide,
    top_zero_full_board [("a", 1), ("b", 2)] (by decide) (by decide)⟩

end Goredis
